import Mathlib

/-!
Shallow embedding of QuantLib's `LexicographicalView`
(`ql/Math/lexicographicalview.hpp`): a lexicographical 2-D view of a
contiguous set of data, with row (x) iterators, strided column (y)
iterators, and reverse adaptors of both.

Random-access iterators into the underlying contiguous sequence are
modelled as integer positions (`Int`); dereferencing goes through an
explicit memory function `mem : Int → α`.  C++ `int` division and
modulus truncate toward zero (`Int.tdiv` / `Int.tmod`) and are undefined
on a zero divisor, which we model with `Option`.
-/

/-- C++ integer division: truncating, undefined (none) on zero divisor. -/
def cppDiv (a b : Int) : Option Int :=
  if b = 0 then none else some (a.tdiv b)

/-- C++ integer modulus: truncating, undefined (none) on zero divisor. -/
def cppMod (a b : Int) : Option Int :=
  if b = 0 then none else some (a.tmod b)

/-- The state of a constructed `LexicographicalView`: the stored fields
`begin_`, `end_`, `xSize_` and the derived `ySize_`
(`lexicographicalview.hpp`, lines 80-81). -/
structure LexicographicalView where
  begin_ : Int
  end_ : Int
  xSize_ : Int
  ySize_ : Int
deriving DecidableEq

/-- The field values the constructor's initializer list stores:
`begin_(begin), end_(end), xSize_(xSize), ySize_((end-begin)/xSize)`
(line 93-94), for a divisor known to be nonzero. -/
def LexicographicalView.ofRange (b e x : Int) : LexicographicalView :=
  ⟨b, e, x, (e - b).tdiv x⟩

/-- Outcome of running the constructor: a constructed view, a
`QL_REQUIRE` failure (InvariantViolation), or undefined behavior
(division or modulus by zero). -/
inductive CtorOutcome where
  | ok (v : LexicographicalView)
  | invariantViolation
  | undefinedBehavior
deriving DecidableEq

/-- The constructor with `QL_DEBUG` off (checking disabled): the
initializer list computes `ySize_ = (end-begin)/xSize` and the body is
empty (lines 87-100 with the `#ifdef QL_DEBUG` block elided). -/
def attachUnchecked (b e x : Int) : CtorOutcome :=
  match cppDiv (e - b) x with
  | none => .undefinedBehavior
  | some y => .ok ⟨b, e, x, y⟩

/-- The constructor with `QL_DEBUG` on (checking enabled): the
initializer list computes `ySize_ = (end-begin)/xSize` first, then the
body runs `QL_REQUIRE((end_-begin_) % xSize_ == 0, ...)` (lines 87-100). -/
def attachChecked (b e x : Int) : CtorOutcome :=
  match cppDiv (e - b) x with
  | none => .undefinedBehavior
  | some y =>
    match cppMod (e - b) x with
    | none => .undefinedBehavior
    | some r => if r = 0 then .ok ⟨b, e, x, y⟩ else .invariantViolation

/-- `xbegin(j) = begin_ + j*xSize_` (lines 102-106). -/
def LexicographicalView.xbegin (v : LexicographicalView) (j : Int) : Int :=
  v.begin_ + j * v.xSize_

/-- `xend(j) = begin_ + (j+1)*xSize_` (lines 108-112). -/
def LexicographicalView.xend (v : LexicographicalView) (j : Int) : Int :=
  v.begin_ + (j + 1) * v.xSize_

/-- Inspector `xSize()` (lines 160-163). -/
def LexicographicalView.xSize (v : LexicographicalView) : Int :=
  v.xSize_

/-- Inspector `ySize()` (lines 165-168). -/
def LexicographicalView.ySize (v : LexicographicalView) : Int :=
  v.ySize_

/-- Modelled from the spec: the strided cursor
(`Utilities::stepping_iterator`, declared in
`ql/Utilities/steppingiterator.hpp`, which is not among the sources).
Per the spec it "wraps a single underlying position plus the step
value", "advances by a configured step count per increment, decrements
by the same step, and supports direct offset arithmetic (advance by `k`
steps) and distance computation (difference in step units)". -/
structure y_iterator where
  pos : Int
  stride : Int
deriving DecidableEq

/-- Modelled from the spec: offset arithmetic on the strided cursor —
advancing by `k` steps moves the wrapped position by `k * stride`. -/
def y_iterator.advance (c : y_iterator) (k : Int) : y_iterator :=
  ⟨c.pos + k * c.stride, c.stride⟩

/-- Modelled from the spec: strided-cursor distance, the difference of
the wrapped positions "in step units". -/
def y_iterator.distance (a b : y_iterator) : Int :=
  (b.pos - a.pos).tdiv a.stride

/-- `ybegin(i) = y_iterator(begin_+i, xSize_)` (lines 128-132). -/
def LexicographicalView.ybegin (v : LexicographicalView) (i : Int) : y_iterator :=
  ⟨v.begin_ + i, v.xSize_⟩

/-- `yend(i) = y_iterator(begin_+i, xSize_) + ySize_` (lines 134-138). -/
def LexicographicalView.yend (v : LexicographicalView) (i : Int) : y_iterator :=
  (⟨v.begin_ + i, v.xSize_⟩ : y_iterator).advance v.ySize_

/-- `operator[](i) = y_iterator(begin_+i, xSize_)` (lines 154-158). -/
def LexicographicalView.opIndex (v : LexicographicalView) (i : Int) : y_iterator :=
  ⟨v.begin_ + i, v.xSize_⟩

/-- A reverse-iterator adaptor: wraps the forward cursor it was
constructed from, as `std::reverse_iterator` does
(`QL_REVERSE_ITERATOR`, lines 44-53). -/
structure ReverseIterator (C : Type) where
  base : C
deriving DecidableEq

/-- The operations a forward cursor over the memory offers: one step
forward, one step back, and dereference. -/
structure CursorOps (C : Type) (α : Type) where
  succ : C → C
  pred : C → C
  deref : (Int → α) → C → α

/-- The reverse-iterator operations over any forward cursor: stepping
the reverse cursor forward steps the base backward and vice versa, and
dereference reads the element one step behind the wrapped base
(standard `std::reverse_iterator` semantics, per the spec's Reverse
Cursor description). -/
def revOps {C : Type} {α : Type} (ops : CursorOps C α) :
    CursorOps (ReverseIterator C) α where
  succ r := ⟨ops.pred r.base⟩
  pred r := ⟨ops.succ r.base⟩
  deref mem r := ops.deref mem (ops.pred r.base)

/-- The plain contiguous random-access iterator (`x_iterator`): a bare
position, stepping by one element. -/
def xOps (α : Type) : CursorOps Int α where
  succ p := p + 1
  pred p := p - 1
  deref mem p := mem p

/-- The strided cursor's forward-cursor operations: stepping moves by
one stride. -/
def yOps (α : Type) : CursorOps y_iterator α where
  succ c := c.advance 1
  pred c := c.advance (-1)
  deref mem c := mem c.pos

/-- `rxbegin(j) = reverse_x_iterator(xend(j))` (lines 114-119). -/
def LexicographicalView.rxbegin (v : LexicographicalView) (j : Int) :
    ReverseIterator Int :=
  ⟨v.xend j⟩

/-- `rxend(j) = reverse_x_iterator(xbegin(j))` (lines 121-126). -/
def LexicographicalView.rxend (v : LexicographicalView) (j : Int) :
    ReverseIterator Int :=
  ⟨v.xbegin j⟩

/-- `rybegin(i) = reverse_y_iterator(yend(i))` (lines 140-145). -/
def LexicographicalView.rybegin (v : LexicographicalView) (i : Int) :
    ReverseIterator y_iterator :=
  ⟨v.yend i⟩

/-- `ryend(i) = reverse_y_iterator(ybegin(i))` (lines 147-152). -/
def LexicographicalView.ryend (v : LexicographicalView) (i : Int) :
    ReverseIterator y_iterator :=
  ⟨v.ybegin i⟩

/-- Iterating a cursor: the list of the `n` elements dereferenced when
stepping a cursor forward `n` times. -/
def walk {C : Type} {α : Type} (ops : CursorOps C α) (mem : Int → α) :
    C → Nat → List α
  | _, 0 => []
  | c, n + 1 => ops.deref mem c :: walk ops mem (ops.succ c) n

/-- The 12-element sequence `[0..11]` of the spec's concrete scenario,
laid out at positions `0..11`. -/
def seq12 : List Int := [0, 1, 2, 3, 4, 5, 6, 7, 8, 9, 10, 11]

/-- Memory function for the concrete scenario: position `p` holds
`seq12`'s entry `p` (out-of-range reads return `-1`). -/
def mem12 (p : Int) : Int :=
  if 0 ≤ p then seq12.getD p.toNat (-1) else -1

theorem walk_succ {C α : Type} (ops : CursorOps C α) (mem : Int → α) (c : C)
    (n : Nat) :
    walk ops mem c (n + 1) = ops.deref mem c :: walk ops mem (ops.succ c) n := rfl

theorem walk_snoc {C α : Type} (ops : CursorOps C α) (mem : Int → α)
    (c : C) (n : Nat) :
    walk ops mem c (n + 1) =
      walk ops mem c n ++ [ops.deref mem (ops.succ^[n] c)] := by
  induction n generalizing c with
  | zero => rfl
  | succ n ih =>
    rw [walk_succ, ih (ops.succ c), walk_succ, Function.iterate_succ_apply]
    simp

/-- Walking a reverse cursor that starts `n` forward steps past `c`
yields the reversal of the forward walk from `c`. -/
theorem walk_rev {C α : Type} (ops : CursorOps C α)
    (hps : ∀ c, ops.pred (ops.succ c) = c) (mem : Int → α) (c : C) (n : Nat) :
    walk (revOps ops) mem ⟨ops.succ^[n] c⟩ n =
      (walk ops mem c n).reverse := by
  induction n generalizing c with
  | zero => rfl
  | succ n ih =>
    rw [Function.iterate_succ_apply', walk_succ]
    have h1 : (revOps ops).succ ⟨ops.succ (ops.succ^[n] c)⟩ =
        ⟨ops.pred (ops.succ (ops.succ^[n] c))⟩ := rfl
    have h2 : (revOps ops).deref mem ⟨ops.succ (ops.succ^[n] c)⟩ =
        ops.deref mem (ops.pred (ops.succ (ops.succ^[n] c))) := rfl
    rw [h1, h2, hps, ih c, walk_snoc ops mem c n, List.reverse_append]
    simp

/-- Reversing a reverse cursor recovers the forward cursor positionally:
the doubly-reversed cursor walks exactly as the forward one does. -/
theorem walk_revrev {C α : Type} (ops : CursorOps C α)
    (hps : ∀ c, ops.pred (ops.succ c) = c) (mem : Int → α) (c : C) (n : Nat) :
    walk (revOps (revOps ops)) mem ⟨⟨c⟩⟩ n = walk ops mem c n := by
  induction n generalizing c with
  | zero => rfl
  | succ n ih =>
    rw [walk_succ, walk_succ]
    have h1 : (revOps (revOps ops)).succ ⟨⟨c⟩⟩ =
        (⟨⟨ops.succ c⟩⟩ : ReverseIterator (ReverseIterator C)) := rfl
    have h2 : (revOps (revOps ops)).deref mem ⟨⟨c⟩⟩ =
        ops.deref mem (ops.pred (ops.succ c)) := rfl
    rw [h1, h2, hps, ih (ops.succ c)]

theorem xOps_pred_succ (α : Type) (p : Int) :
    (xOps α).pred ((xOps α).succ p) = p := by
  show p + 1 - 1 = p
  omega

theorem yOps_succ (α : Type) (c : y_iterator) :
    (yOps α).succ c = ⟨c.pos + c.stride, c.stride⟩ := by
  show c.advance 1 = _
  simp [y_iterator.advance]

theorem yOps_pred_succ (α : Type) (c : y_iterator) :
    (yOps α).pred ((yOps α).succ c) = c := by
  show ((c.advance 1).advance (-1)) = c
  cases c
  simp [y_iterator.advance]

theorem xOps_iterate (α : Type) (p : Int) (n : Nat) :
    (xOps α).succ^[n] p = p + n := by
  induction n generalizing p with
  | zero => simp
  | succ n ih =>
    rw [Function.iterate_succ_apply, ih]
    show p + 1 + (n : Int) = p + (n + 1 : Nat)
    push_cast
    ring

theorem yOps_iterate (α : Type) (c : y_iterator) (n : Nat) :
    (yOps α).succ^[n] c = ⟨c.pos + n * c.stride, c.stride⟩ := by
  induction n generalizing c with
  | zero => simp
  | succ n ih =>
    rw [Function.iterate_succ_apply, yOps_succ, ih]
    simp only [y_iterator.mk.injEq, and_true]
    push_cast
    ring

/-- Claim C1: for every view attached with `rowLength > 0` and every
in-range pair `(i, j)`, advancing `xbegin(j)` by `i` single-element
steps and advancing `ybegin(i)` by `j` strided steps reach the same
underlying position, `start + j*rowLength + i`. -/
theorem C1_roundtrip_addressing (b e x : Int) (hx : 0 < x) (i j : Int)
    (hi0 : 0 ≤ i) (hi : i < x) (hj0 : 0 ≤ j)
    (hj : j < (LexicographicalView.ofRange b e x).ySize_) :
    (LexicographicalView.ofRange b e x).xbegin j + i = b + j * x + i ∧
    (((LexicographicalView.ofRange b e x).ybegin i).advance j).pos =
      b + j * x + i := by
  constructor
  · rfl
  · show b + i + j * x = b + j * x + i
    ring

/-- Witness for C1 at `b = 0`, `e = 12`, `x = 4`, `i = 2`, `j = 1`. -/
theorem C1_roundtrip_addressing_witness :
    (LexicographicalView.ofRange 0 12 4).xbegin 1 + 2 = 0 + 1 * 4 + 2 ∧
    (((LexicographicalView.ofRange 0 12 4).ybegin 2).advance 1).pos =
      0 + 1 * 4 + 2 :=
  C1_roundtrip_addressing 0 12 4 (by decide) 2 1 (by decide) (by decide)
    (by decide) (by decide)

/-- Claim C2: every construction from `start ≤ end` and `rowLength > 0`
stores `ySize_` equal to the truncating division `(end − start) /
rowLength`, and this is exact when `(end − start)` is a multiple of
`rowLength`. -/
theorem C2_columnCount_truncated_division (b e x : Int) (hbe : b ≤ e)
    (hx : 0 < x) :
    (∀ v, attachUnchecked b e x = CtorOutcome.ok v →
      v.ySize_ = (e - b).tdiv x) ∧
    (∀ v, attachChecked b e x = CtorOutcome.ok v →
      v.ySize_ = (e - b).tdiv x) ∧
    (∀ q : Int, e - b = x * q → (e - b).tdiv x = q) := by
  have hx0 : x ≠ 0 := ne_of_gt hx
  refine ⟨?_, ?_, ?_⟩
  · intro v hv
    simp only [attachUnchecked, cppDiv, if_neg hx0, CtorOutcome.ok.injEq] at hv
    rw [← hv]
  · intro v hv
    simp only [attachChecked, cppDiv, cppMod, if_neg hx0] at hv
    by_cases hr : (e - b).tmod x = 0
    · simp only [if_pos hr, CtorOutcome.ok.injEq] at hv
      rw [← hv]
    · simp [if_neg hr] at hv
  · intro q hq
    rw [hq]
    exact Int.mul_tdiv_cancel_left q hx0

/-- Witness for C2 at `b = 0`, `e = 12`, `x = 4`, checking that the
exactness clause gives `12.tdiv 4 = 3`. -/
theorem C2_columnCount_truncated_division_witness :
    ((0 : Int) ≤ 12 ∧ (0 : Int) < 4) ∧ ((12 : Int) - 0).tdiv 4 = 3 :=
  ⟨⟨by decide, by decide⟩,
    (C2_columnCount_truncated_division 0 12 4 (by decide) (by decide)).2.2 3
      (by decide)⟩

/-- Claim C3: for every view and in-range row index `j`, `xbegin(j)` is
`start + j*rowLength`, `xend(j)` is `start + (j+1)*rowLength`, and their
distance is exactly `rowLength`. -/
theorem C3_row_bounds (b e x : Int) (hx : 0 < x) (j : Int) (hj0 : 0 ≤ j)
    (hj : j < (LexicographicalView.ofRange b e x).ySize_) :
    (LexicographicalView.ofRange b e x).xbegin j = b + j * x ∧
    (LexicographicalView.ofRange b e x).xend j = b + (j + 1) * x ∧
    (LexicographicalView.ofRange b e x).xend j -
      (LexicographicalView.ofRange b e x).xbegin j = x := by
  refine ⟨rfl, rfl, ?_⟩
  show b + (j + 1) * x - (b + j * x) = x
  ring

/-- Witness for C3 at `b = 0`, `e = 12`, `x = 4`, `j = 1`. -/
theorem C3_row_bounds_witness :
    (LexicographicalView.ofRange 0 12 4).xbegin 1 = 0 + 1 * 4 ∧
    (LexicographicalView.ofRange 0 12 4).xend 1 = 0 + (1 + 1) * 4 ∧
    (LexicographicalView.ofRange 0 12 4).xend 1 -
      (LexicographicalView.ofRange 0 12 4).xbegin 1 = 4 :=
  C3_row_bounds 0 12 4 (by decide) 1 (by decide) (by decide)

/-- Claim C4: for every view and in-range column index `i`, `ybegin(i)`
is the strided cursor at `start + i` with step `rowLength`, `yend(i)` is
`ybegin(i)` advanced by `ySize` strided steps, and their distance in
step units is exactly `ySize`. -/
theorem C4_column_bounds (b e x : Int) (hx : 0 < x) (i : Int) (hi0 : 0 ≤ i)
    (hi : i < x) :
    (LexicographicalView.ofRange b e x).ybegin i = ⟨b + i, x⟩ ∧
    (LexicographicalView.ofRange b e x).yend i =
      ((LexicographicalView.ofRange b e x).ybegin i).advance
        (LexicographicalView.ofRange b e x).ySize_ ∧
    y_iterator.distance ((LexicographicalView.ofRange b e x).ybegin i)
        ((LexicographicalView.ofRange b e x).yend i) =
      (LexicographicalView.ofRange b e x).ySize_ := by
  have hx0 : x ≠ 0 := ne_of_gt hx
  refine ⟨rfl, rfl, ?_⟩
  show (b + i + (LexicographicalView.ofRange b e x).ySize_ * x - (b + i)).tdiv x
      = (LexicographicalView.ofRange b e x).ySize_
  rw [add_sub_cancel_left]
  exact Int.mul_tdiv_cancel _ hx0

/-- Witness for C4 at `b = 0`, `e = 12`, `x = 4`, `i = 2`. -/
theorem C4_column_bounds_witness :
    (LexicographicalView.ofRange 0 12 4).ybegin 2 = ⟨0 + 2, 4⟩ ∧
    (LexicographicalView.ofRange 0 12 4).yend 2 =
      ((LexicographicalView.ofRange 0 12 4).ybegin 2).advance
        (LexicographicalView.ofRange 0 12 4).ySize_ ∧
    y_iterator.distance ((LexicographicalView.ofRange 0 12 4).ybegin 2)
        ((LexicographicalView.ofRange 0 12 4).yend 2) =
      (LexicographicalView.ofRange 0 12 4).ySize_ :=
  C4_column_bounds 0 12 4 (by decide) 2 (by decide) (by decide)

/-- Claim C6: with checking enabled, attaching fails with an
InvariantViolation exactly when `(end − start) % rowLength ≠ 0` (and
then no view is produced); with checking disabled, construction always
succeeds for `rowLength > 0` and `ySize_` silently holds the truncated
division. -/
theorem C6_construction_error_contract (b e x : Int) (hx : 0 < x) :
    (attachChecked b e x = CtorOutcome.invariantViolation ↔
      (e - b).tmod x ≠ 0) ∧
    attachUnchecked b e x =
      CtorOutcome.ok (LexicographicalView.ofRange b e x) ∧
    (LexicographicalView.ofRange b e x).ySize_ = (e - b).tdiv x := by
  have hx0 : x ≠ 0 := ne_of_gt hx
  refine ⟨?_, ?_, rfl⟩
  · by_cases hr : (e - b).tmod x = 0
    · simp [attachChecked, cppDiv, cppMod, if_neg hx0, hr]
    · simp [attachChecked, cppDiv, cppMod, if_neg hx0, hr]
  · simp [attachUnchecked, cppDiv, if_neg hx0, LexicographicalView.ofRange]

/-- Witness for C6 at `b = 0`, `e = 12`, `x = 5` (a non-divisor). -/
theorem C6_construction_error_contract_witness :
    (attachChecked 0 12 5 = CtorOutcome.invariantViolation ↔
      ((12 : Int) - 0).tmod 5 ≠ 0) ∧
    attachUnchecked 0 12 5 =
      CtorOutcome.ok (LexicographicalView.ofRange 0 12 5) ∧
    (LexicographicalView.ofRange 0 12 5).ySize_ = ((12 : Int) - 0).tdiv 5 :=
  C6_construction_error_contract 0 12 5 (by decide)

/-- Claim C7: for every view and in-range column index `i`,
`operator[](i)` returns the same cursor as `ybegin(i)`: same wrapped
position `start + i` and same step `rowLength`. -/
theorem C7_opIndex_eq_ybegin (b e x : Int) (hx : 0 < x) (i : Int)
    (hi0 : 0 ≤ i) (hi : i < x) :
    (LexicographicalView.ofRange b e x).opIndex i =
      (LexicographicalView.ofRange b e x).ybegin i ∧
    ((LexicographicalView.ofRange b e x).opIndex i).pos = b + i ∧
    ((LexicographicalView.ofRange b e x).opIndex i).stride = x :=
  ⟨rfl, rfl, rfl⟩

/-- Witness for C7 at `b = 0`, `e = 12`, `x = 4`, `i = 2`. -/
theorem C7_opIndex_eq_ybegin_witness :
    (LexicographicalView.ofRange 0 12 4).opIndex 2 =
      (LexicographicalView.ofRange 0 12 4).ybegin 2 ∧
    ((LexicographicalView.ofRange 0 12 4).opIndex 2).pos = 0 + 2 ∧
    ((LexicographicalView.ofRange 0 12 4).opIndex 2).stride = 4 :=
  C7_opIndex_eq_ybegin 0 12 4 (by decide) 2 (by decide) (by decide)

/-- Claim C5: reverse laws — iterating `[rxbegin(j), rxend(j))` yields
row `j`'s elements in reverse order, iterating `[rybegin(i), ryend(i))`
yields column `i`'s elements in reverse order, a doubly-reversed cursor
walks exactly as the forward cursor does (for both the contiguous and
the strided family), and a reverse cursor built from forward position
`P` dereferences the element at `P - 1`. -/
theorem C5_reverse_laws (α : Type) (mem : Int → α) (b e x : Int)
    (hbe : b ≤ e) (hx : 0 < x) (i j : Int) (hi0 : 0 ≤ i) (hi : i < x)
    (hj0 : 0 ≤ j)
    (hj : j < (LexicographicalView.ofRange b e x).ySize_) :
    walk (revOps (xOps α)) mem
        ((LexicographicalView.ofRange b e x).rxbegin j) x.toNat =
      (walk (xOps α) mem
        ((LexicographicalView.ofRange b e x).xbegin j) x.toNat).reverse ∧
    walk (revOps (yOps α)) mem
        ((LexicographicalView.ofRange b e x).rybegin i)
        (LexicographicalView.ofRange b e x).ySize_.toNat =
      (walk (yOps α) mem
        ((LexicographicalView.ofRange b e x).ybegin i)
        (LexicographicalView.ofRange b e x).ySize_.toNat).reverse ∧
    (∀ (p : Int) (n : Nat),
      walk (revOps (revOps (xOps α))) mem ⟨⟨p⟩⟩ n = walk (xOps α) mem p n) ∧
    (∀ (c : y_iterator) (n : Nat),
      walk (revOps (revOps (yOps α))) mem ⟨⟨c⟩⟩ n = walk (yOps α) mem c n) ∧
    (∀ p : Int, (revOps (xOps α)).deref mem ⟨p⟩ = mem (p - 1)) := by
  have hxnn : (0 : Int) ≤ x := le_of_lt hx
  have hxt : ((x.toNat : Int)) = x := Int.toNat_of_nonneg hxnn
  have hynn : (0 : Int) ≤ (LexicographicalView.ofRange b e x).ySize_ :=
    Int.tdiv_nonneg (by linarith) hxnn
  have hyt : (((LexicographicalView.ofRange b e x).ySize_.toNat : Int)) =
      (LexicographicalView.ofRange b e x).ySize_ :=
    Int.toNat_of_nonneg hynn
  refine ⟨?_, ?_, ?_, ?_, ?_⟩
  · have hb : ((⟨(xOps α).succ^[x.toNat]
        ((LexicographicalView.ofRange b e x).xbegin j)⟩ :
        ReverseIterator Int)) =
        (LexicographicalView.ofRange b e x).rxbegin j := by
      rw [xOps_iterate, hxt]
      show (⟨b + j * x + x⟩ : ReverseIterator Int) = ⟨b + (j + 1) * x⟩
      congr 1
      ring
    rw [← hb]
    exact walk_rev (xOps α) (xOps_pred_succ α) mem _ _
  · have hb : ((⟨(yOps α).succ^[(LexicographicalView.ofRange b e x).ySize_.toNat]
        ((LexicographicalView.ofRange b e x).ybegin i)⟩ :
        ReverseIterator y_iterator)) =
        (LexicographicalView.ofRange b e x).rybegin i := by
      rw [yOps_iterate, hyt]
      show (⟨⟨b + i + (LexicographicalView.ofRange b e x).ySize_ * x, x⟩⟩ :
        ReverseIterator y_iterator) = ⟨⟨b + i + (LexicographicalView.ofRange b e x).ySize_ * x, x⟩⟩
      rfl
    rw [← hb]
    exact walk_rev (yOps α) (yOps_pred_succ α) mem _ _
  · intro p n
    exact walk_revrev (xOps α) (xOps_pred_succ α) mem p n
  · intro c n
    exact walk_revrev (yOps α) (yOps_pred_succ α) mem c n
  · intro p
    rfl

/-- Witness for C5 at the concrete scenario (`b = 0`, `e = 12`,
`x = 4`, `i = 2`, `j = 1`, memory `mem12`). -/
theorem C5_reverse_laws_witness :
    walk (revOps (xOps Int)) mem12
        ((LexicographicalView.ofRange 0 12 4).rxbegin 1) (4 : Int).toNat =
      (walk (xOps Int) mem12
        ((LexicographicalView.ofRange 0 12 4).xbegin 1) (4 : Int).toNat).reverse ∧
    walk (revOps (yOps Int)) mem12
        ((LexicographicalView.ofRange 0 12 4).rybegin 2)
        (LexicographicalView.ofRange 0 12 4).ySize_.toNat =
      (walk (yOps Int) mem12
        ((LexicographicalView.ofRange 0 12 4).ybegin 2)
        (LexicographicalView.ofRange 0 12 4).ySize_.toNat).reverse ∧
    (∀ (p : Int) (n : Nat),
      walk (revOps (revOps (xOps Int))) mem12 ⟨⟨p⟩⟩ n =
        walk (xOps Int) mem12 p n) ∧
    (∀ (c : y_iterator) (n : Nat),
      walk (revOps (revOps (yOps Int))) mem12 ⟨⟨c⟩⟩ n =
        walk (yOps Int) mem12 c n) ∧
    (∀ p : Int, (revOps (xOps Int)).deref mem12 ⟨p⟩ = mem12 (p - 1)) :=
  C5_reverse_laws Int mem12 0 12 4 (by decide) (by decide) 2 1 (by decide)
    (by decide) (by decide) (by decide)

/-- Claim C8: the concrete scenario — attaching `[0..11]` with
`rowLength = 4` yields `columnCount = 3`; row 1 traverses to
`[4,5,6,7]`; column 2 traverses to `[2,6,10]`; and `view[2]` advanced
once then dereferenced yields `6`. -/
theorem C8_concrete_scenario :
    attachChecked 0 12 4 = CtorOutcome.ok (LexicographicalView.ofRange 0 12 4) ∧
    (LexicographicalView.ofRange 0 12 4).ySize_ = 3 ∧
    walk (xOps Int) mem12 ((LexicographicalView.ofRange 0 12 4).xbegin 1) 4 =
      [4, 5, 6, 7] ∧
    walk (yOps Int) mem12
      (((LexicographicalView.ofRange 0 12 4).ybegin 2)) 3 = [2, 6, 10] ∧
    (yOps Int).deref mem12
      (((LexicographicalView.ofRange 0 12 4).opIndex 2).advance 1) = 6 := by
  refine ⟨?_, ?_, ?_, ?_, ?_⟩ <;> decide

/-- Claim C9: when the range length is an exact multiple of `rowLength`,
`yend(i)` wraps position `start + i + rowLength*columnCount = end + i`;
for `i ≥ 1` that is strictly beyond `end`; and every position a
contract-respecting traversal of column `i` dereferences lies strictly
before `end`. -/
theorem C9_yend_is_a_bound (b e x : Int) (hbe : b ≤ e) (hx : 0 < x)
    (hdvd : (e - b).tmod x = 0) (i : Int) (hi0 : 0 ≤ i) (hi : i < x) :
    ((LexicographicalView.ofRange b e x).yend i).pos =
      b + i + x * (LexicographicalView.ofRange b e x).ySize_ ∧
    ((LexicographicalView.ofRange b e x).yend i).pos = e + i ∧
    (1 ≤ i → e < ((LexicographicalView.ofRange b e x).yend i).pos) ∧
    (∀ k : Nat, (k : Int) < (LexicographicalView.ofRange b e x).ySize_ →
      (((LexicographicalView.ofRange b e x).ybegin i).advance k).pos < e) := by
  have hx0 : x ≠ 0 := ne_of_gt hx
  have hmul : x * ((e - b).tdiv x) = e - b :=
    Int.mul_tdiv_cancel' (Int.dvd_of_tmod_eq_zero hdvd)
  have hpos : ((LexicographicalView.ofRange b e x).yend i).pos =
      b + i + x * (LexicographicalView.ofRange b e x).ySize_ := by
    show b + i + (e - b).tdiv x * x = b + i + x * ((e - b).tdiv x)
    ring
  refine ⟨hpos, ?_, ?_, ?_⟩
  · rw [hpos]
    show b + i + x * ((e - b).tdiv x) = e + i
    rw [hmul]
    ring
  · intro h1
    rw [hpos]
    show e < b + i + x * ((e - b).tdiv x)
    rw [hmul]
    linarith
  · intro k hk
    show b + i + (k : Int) * x < e
    have hk0 : (k : Int) < (e - b).tdiv x := hk
    have hk1 : (k : Int) ≤ (e - b).tdiv x - 1 := by
      omega
    have hkx : (k : Int) * x ≤ ((e - b).tdiv x - 1) * x :=
      mul_le_mul_of_nonneg_right hk1 (le_of_lt hx)
    have hqx : ((e - b).tdiv x - 1) * x = (e - b) - x := by
      have : ((e - b).tdiv x) * x = e - b := by
        rw [mul_comm] at hmul
        exact hmul
      linarith [this]
    linarith

/-- Witness for C9 at `b = 0`, `e = 12`, `x = 4`, `i = 2`, checking in
particular the in-range dereference bound at `k = 2`. -/
theorem C9_yend_is_a_bound_witness :
    ((LexicographicalView.ofRange 0 12 4).yend 2).pos =
      0 + 2 + 4 * (LexicographicalView.ofRange 0 12 4).ySize_ ∧
    ((LexicographicalView.ofRange 0 12 4).yend 2).pos = 12 + 2 ∧
    (12 : Int) < ((LexicographicalView.ofRange 0 12 4).yend 2).pos ∧
    (((LexicographicalView.ofRange 0 12 4).ybegin 2).advance (2 : Nat)).pos <
      12 := by
  have h := C9_yend_is_a_bound 0 12 4 (by decide) (by decide) (by decide) 2
    (by decide) (by decide)
  exact ⟨h.1, h.2.1, h.2.2.1 (by decide), h.2.2.2 2 (by decide)⟩

/-- Claim C10: the constructor divides by `rowLength` before the
divisibility check ever runs, so with `rowLength = 0` both the checked
and the unchecked constructor hit undefined behavior (the checked one
never reaches an InvariantViolation); with `rowLength > 0` the division
branch is defined and unchecked construction is total. -/
theorem C10_division_by_zero_unguarded (b e : Int) :
    attachChecked b e 0 = CtorOutcome.undefinedBehavior ∧
    attachUnchecked b e 0 = CtorOutcome.undefinedBehavior ∧
    (∀ x : Int, 0 < x →
      attachChecked b e x ≠ CtorOutcome.undefinedBehavior ∧
      attachUnchecked b e x =
        CtorOutcome.ok (LexicographicalView.ofRange b e x)) := by
  refine ⟨?_, ?_, ?_⟩
  · simp [attachChecked, cppDiv]
  · simp [attachUnchecked, cppDiv]
  · intro x hx
    have hx0 : x ≠ 0 := ne_of_gt hx
    constructor
    · by_cases hr : (e - b).tmod x = 0
      · simp [attachChecked, cppDiv, cppMod, if_neg hx0, hr]
      · simp [attachChecked, cppDiv, cppMod, if_neg hx0, hr]
    · simp [attachUnchecked, cppDiv, if_neg hx0, LexicographicalView.ofRange]

/-- Witness for C10 at `b = 0`, `e = 12`, exercising the `x > 0` clause
at `x = 4`. -/
theorem C10_division_by_zero_unguarded_witness :
    attachChecked 0 12 0 = CtorOutcome.undefinedBehavior ∧
    attachUnchecked 0 12 0 = CtorOutcome.undefinedBehavior ∧
    (attachChecked 0 12 4 ≠ CtorOutcome.undefinedBehavior ∧
      attachUnchecked 0 12 4 =
        CtorOutcome.ok (LexicographicalView.ofRange 0 12 4)) := by
  have h := C10_division_by_zero_unguarded 0 12
  exact ⟨h.1, h.2.1, h.2.2 4 (by decide)⟩
